import Mathlib

/-!
Verification of the character-controller tutorial (`src/tutorial1-character-controller/src/main.rs`).

Shallow embedding conventions:
* `f32` / `f64` arithmetic is modelled by exact rational arithmetic (`ℚ`).
* `UnitQuaternion::from_axis_angle(&axis, deg.to_radians())` is modelled by the
  pair of the axis and the degree argument (`AxisAngle`): no claim inspects the
  numeric value of a rotation, only which rotation is written where.
* The winit event types (`Event`, `WindowEvent`, `DeviceEvent`, keyboard input)
  are modelled with the constructors the program matches on, plus catch-all
  constructors for every other variant, which the program treats uniformly.
* Scene-graph handles (`player.camera`, `player.rigid_body`) always point at the
  one camera node and the one rigid-body node of the scene, so the scene is
  modelled as a record with one slot for each.
-/

namespace CharacterController

/-- Model of `winit::event::ElementState`. -/
inductive ElementState
  | Pressed
  | Released
deriving DecidableEq

/-- Model of `winit::event::VirtualKeyCode`: the key codes the program matches on
(`W`, `S`, `A`, `D` in `process_input_event`, `Escape` in `main`), plus a
catch-all constructor for every other key code. -/
inductive VirtualKeyCode
  | W
  | S
  | A
  | D
  | Escape
  | Other (code : ℕ)
deriving DecidableEq

/-- Model of `winit::event::KeyboardInput`: the two fields the program reads. -/
structure KeyboardInput where
  virtual_keycode : Option VirtualKeyCode
  state : ElementState
deriving DecidableEq

/-- Model of `winit::event::WindowEvent`: the variants the program matches on,
plus a catch-all. -/
inductive WindowEvent
  | KeyboardInput (input : KeyboardInput)
  | CloseRequested
  | Resized (width height : ℕ)
  | OtherWindow (code : ℕ)
deriving DecidableEq

/-- Model of `winit::event::DeviceEvent`: `MouseMotion` carries the
`delta : (f64, f64)` pair; catch-all for the other variants. -/
inductive DeviceEvent
  | MouseMotion (dx dy : ℚ)
  | OtherDevice (code : ℕ)
deriving DecidableEq

/-- Model of `winit::event::Event`: the variants the program matches on, plus a
catch-all. -/
inductive Event
  | WindowEvent (event : WindowEvent)
  | DeviceEvent (event : DeviceEvent)
  | MainEventsCleared
  | RedrawRequested
  | OtherEvent (code : ℕ)
deriving DecidableEq

/-- Model of `fyrox::core::algebra::Vector3<f32>`. -/
structure Vector3 where
  x : ℚ
  y : ℚ
  z : ℚ
deriving DecidableEq

instance : Add Vector3 :=
  ⟨fun a b => ⟨a.x + b.x, a.y + b.y, a.z + b.z⟩⟩

instance : Sub Vector3 :=
  ⟨fun a b => ⟨a.x - b.x, a.y - b.y, a.z - b.z⟩⟩

/-- The three coordinate axes (`Vector3::x_axis()`, `y_axis()`, `z_axis()`). -/
inductive Axis
  | x
  | y
  | z
deriving DecidableEq

/-- Model of `UnitQuaternion::from_axis_angle(&axis, angle_degrees.to_radians())`:
the axis together with the angle argument in degrees, before the `to_radians`
conversion.  The degrees-to-radians-to-quaternion composition is abstracted away
because no claim inspects a rotation numerically, only which rotation is set. -/
structure AxisAngle where
  axis : Axis
  angle_degrees : ℚ
deriving DecidableEq

/-- The rigid-body node of the scene: the pieces of engine state the per-tick
update reads (`lin_vel`, `look_vector`, `side_vector`) and writes (`lin_vel`,
`rotation` via `local_transform_mut().set_rotation`). -/
structure RigidBody where
  lin_vel : Vector3
  look_vector : Vector3
  side_vector : Vector3
  rotation : AxisAngle
deriving DecidableEq

/-- The scene state touched by `Player::update`: the camera node's local rotation
and the rigid-body node. -/
structure Scene where
  camera_rotation : AxisAngle
  body : RigidBody
deriving DecidableEq

/-- Model of `InputController` (`main.rs` lines 26-34). -/
structure InputController where
  move_forward : Bool
  move_backward : Bool
  move_left : Bool
  move_right : Bool
  pitch : ℚ
  yaw : ℚ
deriving DecidableEq

/-- `#[derive(Default)]` on `InputController`: all booleans `false`, all floats
`0.0`. -/
def InputController.default : InputController :=
  ⟨false, false, false, false, 0, 0⟩

/-- Model of `Player`: in `Player::new` the `camera` and `rigid_body` handles
point at the scene's camera and rigid-body slots, so only the controller
remains as state. -/
structure Player where
  controller : InputController
deriving DecidableEq

/-- The player state as built by `Player::new`: `controller: Default::default()`. -/
def initial_player : Player :=
  ⟨InputController.default⟩

/-- Model of Rust's `f32::clamp(self, min, max)` (for `min ≤ max`):
`if self < min { min } else if self > max { max } else { self }`. -/
def rustClamp (x lo hi : ℚ) : ℚ :=
  if x < lo then lo else if hi < x then hi else x

/-- Model of `Player::process_input_event` (`main.rs` lines 161-195).  The Rust
function mutates `self.controller` in place; here it returns the new player. -/
def Player.process_input_event (p : Player) (event : Event) : Player :=
  match event with
  | Event.WindowEvent e =>
    match e with
    | WindowEvent.KeyboardInput input =>
      match input.virtual_keycode with
      | some key_code =>
        match key_code with
        | VirtualKeyCode.W =>
          ⟨{ p.controller with move_forward := input.state == ElementState.Pressed }⟩
        | VirtualKeyCode.S =>
          ⟨{ p.controller with move_backward := input.state == ElementState.Pressed }⟩
        | VirtualKeyCode.A =>
          ⟨{ p.controller with move_left := input.state == ElementState.Pressed }⟩
        | VirtualKeyCode.D =>
          ⟨{ p.controller with move_right := input.state == ElementState.Pressed }⟩
        | _ => p
      | none => p
    | _ => p
  | Event.DeviceEvent e =>
    match e with
    | DeviceEvent.MouseMotion dx dy =>
      ⟨{ p.controller with
          yaw := p.controller.yaw - dx,
          pitch := rustClamp (p.controller.pitch + dy) (-90) 90 }⟩
    | _ => p
  | _ => p

/-- Model of `Player::update` (`main.rs` lines 119-159).  The Rust function
mutates the scene through `&mut self` and `&mut Scene`; here it returns the new
player and scene.  Steps, in source order: set the camera rotation from the
pitch; start from `(0, lin_vel.y, 0)`; add/subtract the look and side vectors
according to the four movement booleans; write the velocity back; set the body
rotation from the yaw. -/
def Player.update (p : Player) (scene : Scene) : Player × Scene :=
  let scene := { scene with camera_rotation := AxisAngle.mk Axis.x p.controller.pitch }
  let body := scene.body
  let velocity := Vector3.mk 0 body.lin_vel.y 0
  let velocity := if p.controller.move_forward then velocity + body.look_vector else velocity
  let velocity := if p.controller.move_backward then velocity - body.look_vector else velocity
  let velocity := if p.controller.move_left then velocity + body.side_vector else velocity
  let velocity := if p.controller.move_right then velocity - body.side_vector else velocity
  let body := { body with lin_vel := velocity, rotation := AxisAngle.mk Axis.y p.controller.yaw }
  (p, { scene with body := body })

/-- `const TIMESTEP: f32 = 1.0 / 60.0` (`main.rs` line 24). -/
def TIMESTEP : ℚ := 1 / 60

/-- Model of the fixed-step drain loop in `main` (`main.rs` lines 259-269):
`while dt >= TIMESTEP { dt -= TIMESTEP; elapsed_time += TIMESTEP; tick; }`.
The per-tick body (`game.update` followed by `engine.update`) is abstracted as
one function `tick` on a state of arbitrary type `α`; the result is the final
`(dt, elapsed_time, state)`. -/
def drainLoop {α : Type} (tick : α → α) (dt elapsed_time : ℚ) (st : α) : ℚ × ℚ × α :=
  if h : TIMESTEP ≤ dt then
    drainLoop tick (dt - TIMESTEP) (elapsed_time + TIMESTEP) (tick st)
  else
    (dt, elapsed_time, st)
termination_by (⌊dt * 60⌋).toNat
decreasing_by
  have h60 : (1 : ℚ) ≤ dt * 60 := by
    rw [TIMESTEP] at h; linarith
  have hfl : (1 : ℤ) ≤ ⌊(dt * 60 : ℚ)⌋ := Int.le_floor.mpr (by exact_mod_cast h60)
  have heq : ((dt - TIMESTEP) * 60 : ℚ) = dt * 60 - ((1 : ℤ) : ℚ) := by
    rw [TIMESTEP]; push_cast; ring
  rw [heq, Int.floor_sub_int]
  omega

/-- One drain cycle of `Event::MainEventsCleared`: compute
`dt = clock.elapsed() - elapsed_time` and run the drain loop; the new value of
the persistent `elapsed_time` variable is returned. -/
def drainCycle (wall_clock elapsed_time : ℚ) : ℚ :=
  (drainLoop id (wall_clock - elapsed_time) elapsed_time ()).2.1

/-- A sequence of drain cycles: `deltas` are the (nonnegative) wall-clock
increments between successive `MainEventsCleared` deliveries; the result is the
final `(wall_clock, elapsed_time)` pair, starting from `(0, 0)` as in `main`
(`let clock = Instant::now(); let mut elapsed_time = 0.0`). -/
def runCycles (deltas : List ℚ) : ℚ × ℚ :=
  deltas.foldl (fun p δ => (p.1 + δ, drainCycle (p.1 + δ) p.2)) (0, 0)

/-- The pressed state carried by the last event in `evs` whose key code is
`key`, or `b` when there is none. -/
def lastKeyState (key : VirtualKeyCode) (evs : List KeyboardInput) (b : Bool) : Bool :=
  evs.foldl
    (fun acc input =>
      if input.virtual_keycode = some key then input.state == ElementState.Pressed else acc)
    b

@[simp]
theorem Vector3.add_def (a b : Vector3) :
    a + b = ⟨a.x + b.x, a.y + b.y, a.z + b.z⟩ := rfl

@[simp]
theorem Vector3.sub_def (a b : Vector3) :
    a - b = ⟨a.x - b.x, a.y - b.y, a.z - b.z⟩ := rfl

theorem rustClamp_bounds (x lo hi : ℚ) (h : lo ≤ hi) :
    lo ≤ rustClamp x lo hi ∧ rustClamp x lo hi ≤ hi := by
  unfold rustClamp
  split
  · exact ⟨le_refl lo, h⟩
  · rename_i h1
    split
    · exact ⟨h, le_refl hi⟩
    · rename_i h2
      exact ⟨le_of_not_lt h1, le_of_not_lt h2⟩

/-- Processing any single event preserves the pitch bounds. -/
theorem process_input_event_pitch_bounds (p : Player) (event : Event)
    (hlo : -90 ≤ p.controller.pitch) (hhi : p.controller.pitch ≤ 90) :
    -90 ≤ (p.process_input_event event).controller.pitch ∧
      (p.process_input_event event).controller.pitch ≤ 90 := by
  cases event with
  | WindowEvent e =>
    cases e with
    | KeyboardInput input =>
      cases hk : input.virtual_keycode with
      | none => simp [Player.process_input_event, hk]; exact ⟨hlo, hhi⟩
      | some k =>
        cases k <;> simp [Player.process_input_event, hk] <;> exact ⟨hlo, hhi⟩
    | CloseRequested => exact ⟨hlo, hhi⟩
    | Resized w hgt => exact ⟨hlo, hhi⟩
    | OtherWindow c => exact ⟨hlo, hhi⟩
  | DeviceEvent e =>
    cases e with
    | MouseMotion dx dy =>
      simpa [Player.process_input_event] using
        rustClamp_bounds (p.controller.pitch + dy) (-90) 90 (by norm_num)
    | OtherDevice c => exact ⟨hlo, hhi⟩
  | MainEventsCleared => exact ⟨hlo, hhi⟩
  | RedrawRequested => exact ⟨hlo, hhi⟩
  | OtherEvent c => exact ⟨hlo, hhi⟩

theorem foldl_pitch_bounds (evs : List Event) :
    ∀ p : Player, -90 ≤ p.controller.pitch → p.controller.pitch ≤ 90 →
      -90 ≤ (evs.foldl Player.process_input_event p).controller.pitch ∧
        (evs.foldl Player.process_input_event p).controller.pitch ≤ 90 := by
  induction evs with
  | nil => intro p hlo hhi; exact ⟨hlo, hhi⟩
  | cons e evs ih =>
    intro p hlo hhi
    have hstep := process_input_event_pitch_bounds p e hlo hhi
    exact ih (p.process_input_event e) hstep.1 hstep.2

/-- C1: starting from the fresh controller, the pitch stays in `[-90, 90]`
after every sequence of events (hence after every event of any sequence), and
every mouse-motion event sets the pitch to `clamp(pitch + dy, -90, 90)`. -/
theorem pitch_clamped_invariant :
    (∀ evs : List Event,
        -90 ≤ (evs.foldl Player.process_input_event initial_player).controller.pitch ∧
          (evs.foldl Player.process_input_event initial_player).controller.pitch ≤ 90) ∧
    (∀ (p : Player) (dx dy : ℚ),
        (p.process_input_event
            (Event.DeviceEvent (DeviceEvent.MouseMotion dx dy))).controller.pitch =
          rustClamp (p.controller.pitch + dy) (-90) 90) := by
  constructor
  · intro evs
    exact foldl_pitch_bounds evs initial_player (by norm_num [initial_player, InputController.default])
      (by norm_num [initial_player, InputController.default])
  · intro p dx dy
    rfl

theorem yaw_foldl (ds : List (ℚ × ℚ)) :
    ∀ p : Player,
      ((ds.map (fun d => Event.DeviceEvent (DeviceEvent.MouseMotion d.1 d.2))).foldl
          Player.process_input_event p).controller.yaw =
        p.controller.yaw - (ds.map Prod.fst).sum := by
  induction ds with
  | nil => intro p; simp
  | cons d ds ih =>
    intro p
    simp only [List.map_cons, List.foldl_cons, List.sum_cons]
    rw [ih]
    simp [Player.process_input_event]
    ring

/-- C5: after any sequence of mouse-delta events applied to the fresh
controller, the yaw equals the negated sum of all `dx` deltas. -/
theorem yaw_neg_cumulative_sum (ds : List (ℚ × ℚ)) :
    ((ds.map (fun d => Event.DeviceEvent (DeviceEvent.MouseMotion d.1 d.2))).foldl
        Player.process_input_event initial_player).controller.yaw =
      -((ds.map Prod.fst).sum) := by
  rw [yaw_foldl]
  simp [initial_player, InputController.default]

/-- Explicit form of one keyboard-input step: each movement boolean is set from
the event when the key code matches its key, and kept otherwise; pitch and yaw
are untouched. -/
theorem process_key_event (p : Player) (input : KeyboardInput) :
    p.process_input_event (Event.WindowEvent (WindowEvent.KeyboardInput input)) =
      ⟨{ p.controller with
          move_forward :=
            if input.virtual_keycode = some VirtualKeyCode.W then
              input.state == ElementState.Pressed
            else p.controller.move_forward,
          move_backward :=
            if input.virtual_keycode = some VirtualKeyCode.S then
              input.state == ElementState.Pressed
            else p.controller.move_backward,
          move_left :=
            if input.virtual_keycode = some VirtualKeyCode.A then
              input.state == ElementState.Pressed
            else p.controller.move_left,
          move_right :=
            if input.virtual_keycode = some VirtualKeyCode.D then
              input.state == ElementState.Pressed
            else p.controller.move_right }⟩ := by
  obtain ⟨kc, st⟩ := input
  cases kc with
  | none => simp [Player.process_input_event]
  | some k => cases k <;> simp [Player.process_input_event]

theorem foldl_key_events (evs : List KeyboardInput) :
    ∀ p : Player,
      ((evs.map (fun i => Event.WindowEvent (WindowEvent.KeyboardInput i))).foldl
              Player.process_input_event p).controller.move_forward =
          lastKeyState VirtualKeyCode.W evs p.controller.move_forward ∧
        ((evs.map (fun i => Event.WindowEvent (WindowEvent.KeyboardInput i))).foldl
              Player.process_input_event p).controller.move_backward =
          lastKeyState VirtualKeyCode.S evs p.controller.move_backward ∧
        ((evs.map (fun i => Event.WindowEvent (WindowEvent.KeyboardInput i))).foldl
              Player.process_input_event p).controller.move_left =
          lastKeyState VirtualKeyCode.A evs p.controller.move_left ∧
        ((evs.map (fun i => Event.WindowEvent (WindowEvent.KeyboardInput i))).foldl
              Player.process_input_event p).controller.move_right =
          lastKeyState VirtualKeyCode.D evs p.controller.move_right := by
  induction evs with
  | nil => intro p; exact ⟨rfl, rfl, rfl, rfl⟩
  | cons i evs ih =>
    intro p
    simp only [List.map_cons, List.foldl_cons, process_key_event]
    exact ih _

/-- C4: from the fresh controller, after any sequence of keyboard key events
each movement boolean equals the pressed state of the last event for its mapped
key (`W`/`S`/`A`/`D`, `false` when no such event occurred); events for any other
key, or with no key code, leave the player unchanged (and the handler is total,
so no error is signalled). -/
theorem movement_flags_track_last_key_event :
    (∀ evs : List KeyboardInput,
        ((evs.map (fun i => Event.WindowEvent (WindowEvent.KeyboardInput i))).foldl
                Player.process_input_event initial_player).controller.move_forward =
            lastKeyState VirtualKeyCode.W evs false ∧
          ((evs.map (fun i => Event.WindowEvent (WindowEvent.KeyboardInput i))).foldl
                Player.process_input_event initial_player).controller.move_backward =
            lastKeyState VirtualKeyCode.S evs false ∧
          ((evs.map (fun i => Event.WindowEvent (WindowEvent.KeyboardInput i))).foldl
                Player.process_input_event initial_player).controller.move_left =
            lastKeyState VirtualKeyCode.A evs false ∧
          ((evs.map (fun i => Event.WindowEvent (WindowEvent.KeyboardInput i))).foldl
                Player.process_input_event initial_player).controller.move_right =
            lastKeyState VirtualKeyCode.D evs false) ∧
    (∀ (p : Player) (st : ElementState) (n : ℕ),
        p.process_input_event
            (Event.WindowEvent (WindowEvent.KeyboardInput ⟨some (VirtualKeyCode.Other n), st⟩)) = p ∧
          p.process_input_event
              (Event.WindowEvent (WindowEvent.KeyboardInput ⟨some VirtualKeyCode.Escape, st⟩)) = p ∧
          p.process_input_event
              (Event.WindowEvent (WindowEvent.KeyboardInput ⟨none, st⟩)) = p) := by
  constructor
  · intro evs
    exact foldl_key_events evs initial_player
  · intro p st n
    exact ⟨rfl, rfl, rfl⟩

/-- C8: delivering the same keyboard key event twice in a row yields the same
player state as delivering it once. -/
theorem key_event_idempotent (p : Player) (input : KeyboardInput) :
    Player.process_input_event
        (Player.process_input_event p (Event.WindowEvent (WindowEvent.KeyboardInput input)))
        (Event.WindowEvent (WindowEvent.KeyboardInput input)) =
      Player.process_input_event p (Event.WindowEvent (WindowEvent.KeyboardInput input)) := by
  obtain ⟨kc, st⟩ := input
  cases kc with
  | none => rfl
  | some k => cases k <;> rfl

/-- C6: when exactly an opposing pair of movement keys is held (forward and
backward together, or left and right together), the look (respectively side)
vector contributions cancel and the velocity written by the per-tick update has
zero horizontal (x and z) components, for every scene and every pitch/yaw. -/
theorem opposing_keys_cancel (pitch yaw : ℚ) (scene : Scene) :
    (((Player.mk (InputController.mk true true false false pitch yaw)).update
          scene).2.body.lin_vel.x = 0 ∧
      ((Player.mk (InputController.mk true true false false pitch yaw)).update
          scene).2.body.lin_vel.z = 0) ∧
    (((Player.mk (InputController.mk false false true true pitch yaw)).update
          scene).2.body.lin_vel.x = 0 ∧
      ((Player.mk (InputController.mk false false true true pitch yaw)).update
          scene).2.body.lin_vel.z = 0) := by
  refine ⟨⟨?_, ?_⟩, ?_, ?_⟩ <;> simp [Player.update]

/-- C7: with all four movement booleans false, the velocity written by the
per-tick update is exactly `(0, lin_vel.y, 0)`: zero horizontal components, the
vertical component of the velocity read at the start of the tick, for every
scene and every pitch/yaw. -/
theorem no_movement_zero_horizontal (pitch yaw : ℚ) (scene : Scene) :
    ((Player.mk (InputController.mk false false false false pitch yaw)).update
        scene).2.body.lin_vel =
      Vector3.mk 0 scene.body.lin_vel.y 0 := rfl

/-- C9: the per-tick update never modifies the controller: all six fields are
identical before and after, for every player and scene. -/
theorem update_controller_read_only (p : Player) (scene : Scene) :
    ((p.update scene).1.controller.move_forward = p.controller.move_forward ∧
      (p.update scene).1.controller.move_backward = p.controller.move_backward ∧
      (p.update scene).1.controller.move_left = p.controller.move_left ∧
      (p.update scene).1.controller.move_right = p.controller.move_right) ∧
    (p.update scene).1.controller.pitch = p.controller.pitch ∧
    (p.update scene).1.controller.yaw = p.controller.yaw :=
  ⟨⟨rfl, rfl, rfl, rfl⟩, rfl, rfl⟩

/-- C10: when the look and side vectors both have zero y component, the vertical
component of the velocity written by the per-tick update equals the vertical
component of the velocity read at the start of the tick, for every combination
of movement booleans. -/
theorem vertical_velocity_preserved (p : Player) (scene : Scene)
    (hlook : scene.body.look_vector.y = 0) (hside : scene.body.side_vector.y = 0) :
    (p.update scene).2.body.lin_vel.y = scene.body.lin_vel.y := by
  obtain ⟨⟨mf, mb, ml, mr, pitch, yaw⟩⟩ := p
  cases mf <;> cases mb <;> cases ml <;> cases mr <;>
    simp [Player.update, hlook, hside]

/-- Witness for C10 at a concrete player and scene. -/
theorem vertical_velocity_preserved_witness :
    (Scene.mk (AxisAngle.mk Axis.x 0)
          (RigidBody.mk (Vector3.mk 3 4 5) (Vector3.mk 1 0 0) (Vector3.mk 0 0 1)
            (AxisAngle.mk Axis.y 0))).body.look_vector.y = 0 ∧
    (Scene.mk (AxisAngle.mk Axis.x 0)
          (RigidBody.mk (Vector3.mk 3 4 5) (Vector3.mk 1 0 0) (Vector3.mk 0 0 1)
            (AxisAngle.mk Axis.y 0))).body.side_vector.y = 0 ∧
    ((Player.mk (InputController.mk true false true false 10 20)).update
          (Scene.mk (AxisAngle.mk Axis.x 0)
            (RigidBody.mk (Vector3.mk 3 4 5) (Vector3.mk 1 0 0) (Vector3.mk 0 0 1)
              (AxisAngle.mk Axis.y 0)))).2.body.lin_vel.y =
      (Scene.mk (AxisAngle.mk Axis.x 0)
          (RigidBody.mk (Vector3.mk 3 4 5) (Vector3.mk 1 0 0) (Vector3.mk 0 0 1)
            (AxisAngle.mk Axis.y 0))).body.lin_vel.y :=
  ⟨rfl, rfl,
    vertical_velocity_preserved
      (Player.mk (InputController.mk true false true false 10 20))
      (Scene.mk (AxisAngle.mk Axis.x 0)
        (RigidBody.mk (Vector3.mk 3 4 5) (Vector3.mk 1 0 0) (Vector3.mk 0 0 1)
          (AxisAngle.mk Axis.y 0)))
      rfl rfl⟩

/-- Closed form of the drain loop, for any `dt`: it performs
`⌊dt / TIMESTEP⌋.toNat` iterations, subtracting `TIMESTEP` from `dt` and adding
`TIMESTEP` to `elapsed_time` on each, and applying `tick` once per iteration. -/
theorem drainLoop_spec {α : Type} (tick : α → α) (dt elapsed_time : ℚ) (st : α) :
    drainLoop tick dt elapsed_time st =
      (dt - (⌊dt / TIMESTEP⌋.toNat : ℚ) * TIMESTEP,
       elapsed_time + (⌊dt / TIMESTEP⌋.toNat : ℚ) * TIMESTEP,
       tick^[⌊dt / TIMESTEP⌋.toNat] st) := by
  induction dt, elapsed_time, st using drainLoop.induct tick with
  | case1 dt elapsed_time st h ih =>
    have hT : (0 : ℚ) < TIMESTEP := by rw [TIMESTEP]; norm_num
    have h1 : (1 : ℚ) ≤ dt / TIMESTEP := (one_le_div hT).mpr h
    have hfl : (1 : ℤ) ≤ ⌊dt / TIMESTEP⌋ := Int.le_floor.mpr (by exact_mod_cast h1)
    have heq : (dt - TIMESTEP) / TIMESTEP = dt / TIMESTEP - ((1 : ℤ) : ℚ) := by
      push_cast
      rw [sub_div, div_self hT.ne']
    have hfls : ⌊(dt - TIMESTEP) / TIMESTEP⌋ = ⌊dt / TIMESTEP⌋ - 1 := by
      rw [heq, Int.floor_sub_int]
    have hn : ⌊dt / TIMESTEP⌋.toNat = ⌊(dt - TIMESTEP) / TIMESTEP⌋.toNat + 1 := by
      omega
    rw [drainLoop.eq_def, dif_pos h, ih, hn]
    simp only [Prod.mk.injEq]
    refine ⟨by push_cast; ring, by push_cast; ring, ?_⟩
    exact (Function.iterate_succ_apply tick _ st).symm
  | case2 dt elapsed_time st h =>
    have hT : (0 : ℚ) < TIMESTEP := by rw [TIMESTEP]; norm_num
    have hlt : dt / TIMESTEP < 1 := (div_lt_one hT).mpr (lt_of_not_le h)
    have hfl : ⌊dt / TIMESTEP⌋ < 1 := Int.floor_lt.mpr (by exact_mod_cast hlt)
    have hn : ⌊dt / TIMESTEP⌋.toNat = 0 := by omega
    rw [drainLoop.eq_def, dif_neg h, hn]
    simp

/-- For nonnegative `dt` the pending remainder after the drain loop lies in
`[0, TIMESTEP)`. -/
theorem drain_remainder_bounds (dt : ℚ) (h : 0 ≤ dt) :
    0 ≤ dt - (⌊dt / TIMESTEP⌋.toNat : ℚ) * TIMESTEP ∧
      dt - (⌊dt / TIMESTEP⌋.toNat : ℚ) * TIMESTEP < TIMESTEP := by
  have hT : (0 : ℚ) < TIMESTEP := by rw [TIMESTEP]; norm_num
  have h0 : (0 : ℤ) ≤ ⌊dt / TIMESTEP⌋ := Int.floor_nonneg.mpr (div_nonneg h hT.le)
  have hle : ((⌊dt / TIMESTEP⌋ : ℤ) : ℚ) * TIMESTEP ≤ dt :=
    (le_div_iff₀ hT).mp (Int.floor_le (dt / TIMESTEP))
  have hlt : dt < (((⌊dt / TIMESTEP⌋ : ℤ) : ℚ) + 1) * TIMESTEP :=
    (div_lt_iff₀ hT).mp (Int.lt_floor_add_one (dt / TIMESTEP))
  have hc : ((⌊dt / TIMESTEP⌋.toNat : ℚ)) = ((⌊dt / TIMESTEP⌋ : ℤ) : ℚ) := by
    exact_mod_cast Int.toNat_of_nonneg h0
  rw [hc]
  constructor <;> linarith

/-- Iterating the successor `k` times adds `k`. -/
theorem succ_iterate (k m : ℕ) : (fun n => n + 1)^[k] m = m + k := by
  induction k with
  | zero => simp
  | succ k ih => rw [Function.iterate_succ_apply']; omega

/-- C2: for every nonnegative wall-clock remainder `dt`, one drain of the
fixed-step loop fires `⌊dt / TIMESTEP⌋` ticks — subtracting `TIMESTEP` from the
remainder, adding `TIMESTEP` to the accumulated simulated time, and invoking
the per-tick update exactly once, per tick — and terminates with a remainder in
`[0, TIMESTEP)`; with `dt = 0.1667` and `TIMESTEP = 1/60` exactly `10` ticks
fire. -/
theorem fixed_step_drain :
    (∀ (α : Type) (tick : α → α) (dt elapsed_time : ℚ) (st : α), 0 ≤ dt →
        drainLoop tick dt elapsed_time st =
          (dt - (⌊dt / TIMESTEP⌋.toNat : ℚ) * TIMESTEP,
           elapsed_time + (⌊dt / TIMESTEP⌋.toNat : ℚ) * TIMESTEP,
           tick^[⌊dt / TIMESTEP⌋.toNat] st) ∧
        0 ≤ (drainLoop tick dt elapsed_time st).1 ∧
        (drainLoop tick dt elapsed_time st).1 < TIMESTEP) ∧
    (drainLoop (fun n => n + 1) (1667 / 10000) 0 (0 : ℕ)).2.2 = 10 := by
  constructor
  · intro α tick dt elapsed_time st h
    refine ⟨drainLoop_spec tick dt elapsed_time st, ?_, ?_⟩ <;> rw [drainLoop_spec]
    · exact (drain_remainder_bounds dt h).1
    · exact (drain_remainder_bounds dt h).2
  · rw [drainLoop_spec]
    have hn : ⌊(1667 / 10000 : ℚ) / TIMESTEP⌋ = 10 := by
      rw [TIMESTEP, Int.floor_eq_iff] <;> norm_num
    simp [hn, succ_iterate]

/-- Witness for C2: at `dt = 1/30`, `elapsed_time = 7`, tick state `3`, the
drain fires two ticks: remainder `0`, simulated time `7 + 1/30`, state `5`. -/
theorem fixed_step_drain_witness :
    (0 : ℚ) ≤ 1 / 30 ∧
      drainLoop (fun n => n + 1) (1 / 30) 7 (3 : ℕ) = (0, 7 + 1 / 30, 5) := by
  have h := fixed_step_drain.1 ℕ (fun n => n + 1) (1 / 30) 7 3 (by norm_num)
  refine ⟨by norm_num, ?_⟩
  rw [h.1]
  have hn : ⌊(1 / 30 : ℚ) / TIMESTEP⌋ = 2 := by
    rw [TIMESTEP, Int.floor_eq_iff] <;> norm_num
  have h2 : (2 : ℤ).toNat = 2 := rfl
  rw [hn, h2]
  norm_num [succ_iterate, TIMESTEP]

/-- One drain cycle adds a natural multiple of `TIMESTEP` to `elapsed_time`. -/
theorem drainCycle_add (wall_clock elapsed_time : ℚ) :
    drainCycle wall_clock elapsed_time =
      elapsed_time + (⌊(wall_clock - elapsed_time) / TIMESTEP⌋.toNat : ℚ) * TIMESTEP := by
  unfold drainCycle
  rw [drainLoop_spec]

/-- A drain cycle never pushes `elapsed_time` past the wall clock. -/
theorem drainCycle_le (wall_clock elapsed_time : ℚ) (h : elapsed_time ≤ wall_clock) :
    drainCycle wall_clock elapsed_time ≤ wall_clock := by
  rw [drainCycle_add]
  have hb := (drain_remainder_bounds (wall_clock - elapsed_time) (by linarith)).1
  linarith

theorem runCycles_foldl_inv (deltas : List ℚ) :
    ∀ p : ℚ × ℚ, (∀ δ ∈ deltas, 0 ≤ δ) →
      (∃ k : ℕ, p.2 = (k : ℚ) * TIMESTEP) → p.2 ≤ p.1 →
      (∃ k : ℕ,
          (deltas.foldl (fun q δ => (q.1 + δ, drainCycle (q.1 + δ) q.2)) p).2 =
            (k : ℚ) * TIMESTEP) ∧
        (deltas.foldl (fun q δ => (q.1 + δ, drainCycle (q.1 + δ) q.2)) p).2 ≤
          (deltas.foldl (fun q δ => (q.1 + δ, drainCycle (q.1 + δ) q.2)) p).1 := by
  induction deltas with
  | nil => intro p hδ hk hle; exact ⟨hk, hle⟩
  | cons d ds ih =>
    intro p hδ hk hle
    have hd : 0 ≤ d := hδ d (List.mem_cons_self d ds)
    simp only [List.foldl_cons]
    apply ih
    · intro δ hmem
      exact hδ δ (List.mem_cons_of_mem d hmem)
    · obtain ⟨k, hk2⟩ := hk
      refine ⟨k + ⌊(p.1 + d - p.2) / TIMESTEP⌋.toNat, ?_⟩
      show drainCycle (p.1 + d) p.2 = _
      rw [drainCycle_add, hk2]
      push_cast
      ring
    · show drainCycle (p.1 + d) p.2 ≤ p.1 + d
      exact drainCycle_le _ _ (by linarith)

/-- C3: starting from `(wall_clock, elapsed_time) = (0, 0)`, after every
sequence of drain cycles (with nonnegative wall-clock increments) the
accumulated simulated time is a natural multiple of `TIMESTEP` and does not
exceed the wall-clock elapsed time by more than one timestep (it never exceeds
it at all). -/
theorem simulated_time_invariant (deltas : List ℚ) (h : ∀ δ ∈ deltas, 0 ≤ δ) :
    (∃ k : ℕ, (runCycles deltas).2 = (k : ℚ) * TIMESTEP) ∧
      (runCycles deltas).2 ≤ (runCycles deltas).1 + TIMESTEP := by
  have hT : (0 : ℚ) < TIMESTEP := by rw [TIMESTEP]; norm_num
  have hinv := runCycles_foldl_inv deltas (0, 0) h ⟨0, by norm_num⟩ (le_refl 0)
  refine ⟨hinv.1, ?_⟩
  have h2 := hinv.2
  unfold runCycles
  linarith

/-- Witness for C3 at the increment sequence `[1/30, 1/100]`. -/
theorem simulated_time_invariant_witness :
    (∀ δ ∈ [(1 / 30 : ℚ), 1 / 100], 0 ≤ δ) ∧
      ((∃ k : ℕ, (runCycles [(1 / 30 : ℚ), 1 / 100]).2 = (k : ℚ) * TIMESTEP) ∧
        (runCycles [(1 / 30 : ℚ), 1 / 100]).2 ≤
          (runCycles [(1 / 30 : ℚ), 1 / 100]).1 + TIMESTEP) := by
  have hδ : ∀ δ ∈ [(1 / 30 : ℚ), 1 / 100], 0 ≤ δ := by
    intro δ hmem
    fin_cases hmem <;> norm_num
  exact ⟨hδ, simulated_time_invariant _ hδ⟩

end CharacterController
